import Mathlib

/-!
Shallow embedding of `iss_tracker.py` (ISS trajectory tracker: feed ingest into a
redis-backed store plus query operations), with theorems settling the spec claims.

Modelling conventions:
* Python floats are idealised as exact rationals, with an explicit `nan` marker where
  NaN propagation matters; `math.sqrt` on finite values is represented by an
  uninterpreted function `sqrtQ : ℚ → ℚ` applied symbolically.
* The redis hash `"iss_data"` is an insertion-ordered association list; `hset`
  overwrites in place (redis keeps the field position on update) or appends.
* `datetime.strptime` on stored epoch keys is abstracted as a parameter
  `parseE : String → ℚ` giving the timestamp (in seconds) a key denotes; claims about
  the nearest-epoch scan and range quantify over it.
* Effects on the store are explicit state passing: a function that the Python code
  lets mutate the redis hash takes the store and returns the store it leaves behind,
  together with `some e` when the Python code raises exception `e` at that point.
-/

set_option autoImplicit false

namespace ISSTracker

/-- The exceptions the Python code can raise, by origin. -/
inductive Err where
  /-- `raise TypeError` in `process_data`'s fetch handler (fetch failed or bad status). -/
  | typeError
  /-- `ET.fromstring` raised: the document is not structurally parseable XML. -/
  | parseError
  /-- a required field of a `stateVector` element is missing (`AttributeError` on
      `.text`) or non-numeric (`float(...)` raised). -/
  | fieldError
  /-- `werkzeug.exceptions.BadRequest` (HTTP 400). -/
  | badRequest
  /-- Python list `IndexError` from `state_vectors[i]`. -/
  | indexError
  /-- `raise ValueError` (empty data set, or `speed` on non-numeric input). -/
  | valueError
deriving DecidableEq, Repr

/-- A Python float as the arithmetic in `speed` sees it: a finite value (idealised as
an exact rational) or NaN. -/
inductive PyFloat where
  | fin (q : ℚ)
  | nan
deriving DecidableEq, Repr

/-- Python `*` on floats: NaN propagates. -/
def pyMul : PyFloat → PyFloat → PyFloat
  | .fin a, .fin b => .fin (a * b)
  | _, _ => .nan

/-- Python `+` on floats: NaN propagates. -/
def pyAdd : PyFloat → PyFloat → PyFloat
  | .fin a, .fin b => .fin (a + b)
  | _, _ => .nan

/-- `math.sqrt`: NaN in gives NaN out (no exception); on a finite value it returns the
float square root, represented by the uninterpreted `sqrtQ`. (`math.sqrt` raises
`ValueError` only on a negative finite argument, which a sum of squares of finite
values never is, so that branch is unreachable at the call sites modelled here.) -/
def pySqrt (sqrtQ : ℚ → ℚ) : PyFloat → PyFloat
  | .fin q => .fin (sqrtQ q)
  | .nan => .nan

/-- An argument passed to `speed`: a float, or a value of a non-numeric type
(for which Python's `*`/`+` raise `TypeError`). -/
inductive PyVal where
  | float (f : PyFloat)
  | nonNumeric (s : String)
deriving DecidableEq, Repr

/-- `speed(x_dot, y_dot, z_dot)` from `iss_tracker.py`:
`math.sqrt(x_dot*x_dot + y_dot*y_dot + z_dot*z_dot)` with `TypeError` caught and
re-raised as `ValueError`. Only `TypeError` (a non-numeric operand) is caught; NaN
operands make the arithmetic and the square root return NaN without raising. -/
def speed (sqrtQ : ℚ → ℚ) : PyVal → PyVal → PyVal → Except Err PyFloat
  | .float a, .float b, .float c =>
      .ok (pySqrt sqrtQ (pyAdd (pyAdd (pyMul a a) (pyMul b b)) (pyMul c c)))
  | _, _, _ => .error .valueError

/-- The six numeric components stored for one state vector. -/
structure SVData where
  x : ℚ
  y : ℚ
  z : ℚ
  x_dot : ℚ
  y_dot : ℚ
  z_dot : ℚ
deriving DecidableEq, Repr

/-- The redis hash `"iss_data"`: insertion-ordered field/value list. -/
def Store := List (String × SVData)

instance : DecidableEq Store := fun a b => List.hasDecEq a b

/-- redis `HSET`: overwrite the field in place if present, else append. -/
def hset : Store → String → SVData → Store
  | [], k, v => [(k, v)]
  | (k', v') :: rest, k, v =>
      if k' = k then (k, v) :: rest else (k', v') :: hset rest k v

/-- redis `HGET`: value of the field, if present. -/
def hget : Store → String → Option SVData
  | [], _ => none
  | (k', v') :: rest, k => if k' = k then some v' else hget rest k

/-- Python `s.split('.')[0]`: everything before the first `'.'` (the whole string when
there is none). -/
def splitDot (s : String) : String :=
  String.mk (s.data.takeWhile (fun c => c ≠ '.'))

/-- One `<stateVector>` element of the fetched document, as `process_data` reads it:
`epoch = none` models a missing `EPOCH` subelement (`.text` on `None` raises
`AttributeError`); a numeric field is `none` when its subelement is missing or its
text is non-numeric (`float(...)` raises `TypeError`/`ValueError`). -/
structure RawSV where
  epoch : Option String
  x : Option ℚ
  y : Option ℚ
  z : Option ℚ
  x_dot : Option ℚ
  y_dot : Option ℚ
  z_dot : Option ℚ
deriving DecidableEq, Repr

/-- Reading the fields of one element in `process_data`'s loop body: succeeds with the
truncated-epoch key and the six components, or `none` when any access raises. -/
def elemParse (e : RawSV) : Option (String × SVData) := do
  let ε ← e.epoch
  let x ← e.x
  let y ← e.y
  let z ← e.z
  let xd ← e.x_dot
  let yd ← e.y_dot
  let zd ← e.z_dot
  pure (splitDot ε, ⟨x, y, z, xd, yd, zd⟩)

/-- Outcome of `requests.get(url)` plus `raise_for_status` plus `ET.fromstring`:
`fail` when the fetch raised or the status was non-success (both land in the bare
`except`), `ok none` when `ET.fromstring` raises on the body, `ok (some doc)` when the
body parses into a list of `<stateVector>` elements in document order. -/
inductive Fetched where
  | fail
  | ok (doc : Option (List RawSV))

/-- The `for state_vector in root.findall(...)` loop of `process_data`: each element is
parsed and immediately `HSET` into the store; the first failing element aborts the
loop with the store as already written. -/
def ingestLoop : List RawSV → Store → Store × Option Err
  | [], s => (s, none)
  | e :: rest, s =>
      match elemParse e with
      | none => (s, some Err.fieldError)
      | some (k, d) => ingestLoop rest (hset s k d)

/-- `process_data(url)`: fetch, structural parse, then the per-element ingest loop.
Returns the store left behind and the exception raised, if any. -/
def process_data (f : Fetched) (s : Store) : Store × Option Err :=
  match f with
  | .fail => (s, some Err.typeError)
  | .ok none => (s, some Err.parseError)
  | .ok (some elems) => ingestLoop elems s

/-- Folding a whole document into the store, element by element, skipping nothing
(the shape `ingestLoop` takes on an all-valid document). -/
def ingestAll (doc : List RawSV) (s : Store) : Store :=
  doc.foldl
    (fun s' e =>
      match elemParse e with
      | some (k, d) => hset s' k d
      | none => s') s

/-- The list comprehension closing `get_iss_data`: every stored entry decorated with
its (already truncated) key as the display epoch. -/
def renderAll (s : Store) : List (String × SVData) :=
  s.map (fun kv => (splitDot kv.1, kv.2))

/-- `get_iss_data()`: populate from the feed only when `hlen == 0`, then render every
entry. The `Bool` records whether `process_data` (and hence the network fetch) ran. -/
def get_iss_data (f : Fetched) (s : Store) :
    Store × Bool × Except Err (List (String × SVData)) :=
  if s.isEmpty then
    match process_data f s with
    | (s', some e) => (s', true, .error e)
    | (s', none) => (s', true, .ok (renderAll s'))
  else (s, false, .ok (renderAll s))

/-- Python list subscription `l[i]`: non-negative indices from the front, negative
indices from the back, `none` (an `IndexError`) out of range. -/
def pyIndex {α : Type} (l : List α) (i : ℤ) : Option α :=
  if 0 ≤ i then l.get? i.toNat
  else if (-i) ≤ (l.length : ℤ) then l.get? (l.length - (-i).toNat)
  else none

/-- The `for i in range(offset, offset + limit): new_vector.append(state_vectors[i])`
loop of `get_epochs`: `n` iterations starting at index `i`, aborting with an
`IndexError` on the first out-of-range access. -/
def collectRange {α : Type} (vecs : List α) : ℤ → ℕ → Except Err (List α)
  | _, 0 => .ok []
  | i, n + 1 =>
      match pyIndex vecs i with
      | none => .error Err.indexError
      | some v =>
          match collectRange vecs (i + 1) n with
          | .error e => .error e
          | .ok rest => .ok (v :: rest)

/-- The slicing core of `get_epochs` (after `limit` and `offset` have been parsed as
integers): reject `offset <= 0 or offset >= len(state_vectors)` with `BadRequest`,
set `limit = len(state_vectors)` when `limit <= 0 or limit + offset >= len(...)`,
then collect `state_vectors[offset .. offset+limit-1]`. `range` iterates
`max 0 limit` times, hence `.toNat`. -/
def rangeSlice {α : Type} (series : List α) (limit offset : ℤ) : Except Err (List α) :=
  if offset ≤ 0 ∨ offset ≥ (series.length : ℤ) then .error Err.badRequest
  else
    let lim : ℤ :=
      if limit ≤ 0 ∨ limit + offset ≥ (series.length : ℤ) then (series.length : ℤ)
      else limit
    collectRange series offset lim.toNat

/-- The `/epochs` route `get_epochs()`: when either query parameter is absent, return
`get_iss_data()` unsliced; otherwise parse both as integers (`BadRequest` on failure,
modelled by `intParse` returning `none`), load the data, and slice. -/
def get_epochs (intParse : String → Option ℤ) (f : Fetched)
    (limitS offsetS : Option String) (s : Store) :
    Store × Bool × Except Err (List (String × SVData)) :=
  match limitS, offsetS with
  | none, _ => get_iss_data f s
  | some _, none => get_iss_data f s
  | some ls, some os =>
      match intParse ls with
      | none => (s, false, .error Err.badRequest)
      | some li =>
          match intParse os with
          | none => (s, false, .error Err.badRequest)
          | some oi =>
              match get_iss_data f s with
              | (s', b, .error e) => (s', b, .error e)
              | (s', b, .ok vecs) => (s', b, rangeSlice vecs li oi)

/-- Python's `abs()` on an (exact-rational) float. -/
def qabs (x : ℚ) : ℚ := if x < 0 then -x else x

/-- One iteration of `closest_epoch`'s scan. The accumulator is
(`closest_vector`, `min_diff`), with `min_diff = none` standing for the initial
`float("inf")` (every finite difference compares below it). The kept record is the
parsed epoch together with the stored components. -/
def scanStep (parseE : String → ℚ) (now : ℚ)
    (acc : Option (ℚ × SVData) × Option ℚ) (kv : String × SVData) :
    Option (ℚ × SVData) × Option ℚ :=
  let t := parseE kv.1
  let d := qabs (t - now)
  match acc.2 with
  | none => (some (t, kv.2), some d)
  | some m => if d < m then (some (t, kv.2), some d) else acc

/-- `closest_epoch(dateTime = datetime.now())`. Python evaluates the default argument
once, when the module loads; `dflt` is that module-load clock value and `arg = none`
models a call that omits the argument. Raises `ValueError` on an empty store;
otherwise a linear scan over `hgetall` items keeping the entry with strictly smaller
`abs(epoch_time - now)`, so the first entry in scan order wins ties. -/
def closest_epoch (parseE : String → ℚ) (dflt : ℚ) (arg : Option ℚ) (s : Store) :
    Except Err (Option (ℚ × SVData)) :=
  if s.isEmpty then .error Err.valueError
  else
    let now := arg.getD dflt
    .ok (s.foldl (scanStep parseE now) (none, none)).1

/-- `epoch_range()`: `ValueError` on an empty store; otherwise parse every key, sort,
and return (first, last, last - first). The `headD 0` and `getLastD 0` defaults are
never consulted: the sorted list is non-empty past the guard. -/
def epoch_range (parseE : String → ℚ) (s : Store) : Except Err (ℚ × ℚ × ℚ) :=
  if s.isEmpty then .error Err.valueError
  else
    let epochs := (s.map (fun kv => parseE kv.1)).mergeSort (fun a b => decide (a ≤ b))
    let first := epochs.headD 0
    let last := epochs.getLastD 0
    .ok (first, last, last - first)

/-- `speed` specialised to the finite floats held in the store: stored components are
numeric, so `speed(float(..), float(..), float(..))` returns
`math.sqrt(x*x + y*y + z*z)` (see `speed_on_stored_components`). -/
def speedFin (sqrtQ : ℚ → ℚ) (x y z : ℚ) : ℚ :=
  sqrtQ (x * x + y * y + z * z)

/-- `avg_speed()`: accumulate `speed` over every stored entry, then `ValueError` when
the loop saw no entries, else the arithmetic mean. -/
def avg_speed (sqrtQ : ℚ → ℚ) (s : Store) : Except Err ℚ :=
  let total :=
    s.foldl (fun acc kv => acc + speedFin sqrtQ kv.2.x_dot kv.2.y_dot kv.2.z_dot) 0
  let count := s.length
  if count ≤ 0 then .error Err.valueError
  else .ok (total / count)

/-- The `/epochs/<epoch>` route `get_specific_epoch(epoch)`: truncate the requested
epoch at the first `'.'`, `HGET` it, `BadRequest` on a miss; on a hit the response
carries the requested epoch string verbatim plus the stored components. -/
def get_specific_epoch (s : Store) (epoch : String) : Except Err (String × SVData) :=
  match hget s (splitDot epoch) with
  | none => .error Err.badRequest
  | some d => .ok (epoch, d)

/-- The `/now` route `get_now_epoch()`: it calls `closest_epoch()` with no argument,
so Python supplies the default — the `datetime.now()` computed once at module load
(`moduleLoadTime`). The clock time of the request itself never enters: the function
has no call-time input at all. -/
def get_now_epoch (parseE : String → ℚ) (sqrtQ : ℚ → ℚ) (moduleLoadTime : ℚ)
    (s : Store) : Except Err ((ℚ × SVData) × ℚ) :=
  match closest_epoch parseE moduleLoadTime none s with
  | .error e => .error e
  | .ok none => .error Err.typeError
  | .ok (some r) => .ok (r, speedFin sqrtQ r.2.x_dot r.2.y_dot r.2.z_dot)

/-- Modelled from the spec: the `/now` route as the spec's table describes it —
`nearestEpoch(now)` where `now` is the clock time at the moment of the call
(`callTime`), followed by the instantaneous speed of the record found. -/
def get_now_epoch_specModel (parseE : String → ℚ) (sqrtQ : ℚ → ℚ) (callTime : ℚ)
    (s : Store) : Except Err ((ℚ × SVData) × ℚ) :=
  match closest_epoch parseE callTime none s with
  | .error e => .error e
  | .ok none => .error Err.typeError
  | .ok (some r) => .ok (r, speedFin sqrtQ r.2.x_dot r.2.y_dot r.2.z_dot)

instance {ε σ : Type} [DecidableEq ε] [DecidableEq σ] : DecidableEq (Except ε σ)
  | .error e, .error e' =>
      if h : e = e' then .isTrue (by rw [h])
      else .isFalse (fun hh => h (Except.error.inj hh))
  | .error _, .ok _ => .isFalse Except.noConfusion
  | .ok _, .error _ => .isFalse Except.noConfusion
  | .ok v, .ok v' =>
      if h : v = v' then .isTrue (by rw [h])
      else .isFalse (fun hh => h (Except.ok.inj hh))

/-! Concrete fixtures for witness and counterexample theorems. -/

/-- A fully valid `stateVector` element. -/
def okElem : RawSV :=
  ⟨some "2025-061T12:00:00.000000Z", some 1, some 2, some 3, some 1, some 1, some 1⟩

/-- An element whose `X_DOT` text is missing or non-numeric: `float(...)` raises. -/
def badElem : RawSV :=
  ⟨some "2025-061T12:04:00.000000Z", some 4, some 5, some 6, none, some 2, some 2⟩

/-- Same epoch as `okElem` up to fractional seconds: collides on the truncated key. -/
def collideElem : RawSV :=
  ⟨some "2025-061T12:00:00.500000Z", some 7, some 8, some 9, some 7, some 7, some 7⟩

/-- A one-entry store (an already-populated cache). -/
def wStore1 : Store := [("2025-061T12:00:00", ⟨1, 2, 3, 1, 1, 1⟩)]

/-- Default entry handed to `List.getD` in index-based statements; never selected. -/
def svDummy : String × SVData := ("", ⟨0, 0, 0, 0, 0, 0⟩)

/-- State vector with all components 1 (instantaneous speed `sqrt 3`). -/
def svA : SVData := ⟨1, 1, 1, 1, 1, 1⟩

/-- State vector with all components 2 (instantaneous speed `sqrt 12`). -/
def svB : SVData := ⟨2, 2, 2, 2, 2, 2⟩

/-- Two-entry store: an epoch at time 0 and one at time 1000. -/
def nowStore : Store := [("A", svA), ("B", svB)]

/-- Epoch-key parse for `nowStore`: `"A"` denotes time 0, `"B"` time 1000. -/
def nowParse : String → ℚ := fun k => if k = "A" then 0 else 1000

/-- Three-entry store at 12:00, 12:05, 12:10 (spec §8 sample), keyed by minute. -/
def wStore3 : Store := [("12:00", svA), ("12:05", svB), ("12:10", svA)]

/-- Epoch-key parse for `wStore3`, in seconds since 12:00. -/
def wParse : String → ℚ := fun k => if k = "12:00" then 0 else if k = "12:05" then 300 else 600

/-! Helper lemmas about the ingest loop and the store. -/

theorem speed_on_stored_components (sqrtQ : ℚ → ℚ) (x y z : ℚ) :
    speed sqrtQ (.float (.fin x)) (.float (.fin y)) (.float (.fin z)) =
      .ok (.fin (speedFin sqrtQ x y z)) := rfl

theorem ingestAll_nil (s : Store) : ingestAll [] s = s := rfl

theorem ingestAll_cons (e : RawSV) (doc : List RawSV) (s : Store) :
    ingestAll (e :: doc) s =
      ingestAll doc
        (match elemParse e with
         | some (k, d) => hset s k d
         | none => s) := rfl

theorem ingestAll_append (l1 l2 : List RawSV) (s : Store) :
    ingestAll (l1 ++ l2) s = ingestAll l2 (ingestAll l1 s) :=
  List.foldl_append ..

theorem ingestLoop_append_valid (pre rest : List RawSV) (s : Store)
    (h : ∀ e ∈ pre, (elemParse e).isSome) :
    ingestLoop (pre ++ rest) s = ingestLoop rest (ingestAll pre s) := by
  induction pre generalizing s with
  | nil => rfl
  | cons e pre ih =>
    obtain ⟨⟨k, d⟩, hkd⟩ :=
      Option.isSome_iff_exists.mp (h e (List.mem_cons_self e pre))
    rw [List.cons_append]
    show (match elemParse e with
          | none => (s, some Err.fieldError)
          | some (k, d) => ingestLoop (pre ++ rest) (hset s k d)) = _
    rw [hkd, ingestAll_cons, hkd]
    exact ih (hset s k d) (fun x hx => h x (List.mem_cons_of_mem e hx))

theorem ingestLoop_all_valid (doc : List RawSV) (s : Store)
    (h : ∀ e ∈ doc, (elemParse e).isSome) :
    ingestLoop doc s = (ingestAll doc s, none) := by
  induction doc generalizing s with
  | nil => rfl
  | cons e rest ih =>
    obtain ⟨⟨k, d⟩, hkd⟩ :=
      Option.isSome_iff_exists.mp (h e (List.mem_cons_self e rest))
    show (match elemParse e with
          | none => (s, some Err.fieldError)
          | some (k, d) => ingestLoop rest (hset s k d)) = _
    rw [hkd, ingestAll_cons, hkd]
    exact ih (hset s k d) (fun x hx => h x (List.mem_cons_of_mem e hx))

theorem hget_hset_self (s : Store) (k : String) (v : SVData) :
    hget (hset s k v) k = some v := by
  induction s with
  | nil => simp [hset, hget]
  | cons kv rest ih =>
    obtain ⟨k', v'⟩ := kv
    by_cases h : k' = k
    · simp [hset, h, hget]
    · simp [hset, h, hget, ih]

theorem hget_hset_other (s : Store) (k0 k : String) (v : SVData) (h : k0 ≠ k) :
    hget (hset s k0 v) k = hget s k := by
  induction s with
  | nil => simp [hset, hget, h]
  | cons kv rest ih =>
    obtain ⟨ka, va⟩ := kv
    by_cases ha : ka = k0
    · subst ha
      have hak : ¬(ka = k) := h
      simp [hset, hget, hak]
    · have hk0 : ¬(k = k0) := fun hh => h hh.symm
      by_cases hk : ka = k <;> simp [hset, ha, hget, hk, ih, hk0]

theorem hget_ingestAll_no_key (doc : List RawSV) (s : Store) (k : String)
    (h : ∀ e ∈ doc, ∀ k' d', elemParse e = some (k', d') → k' ≠ k) :
    hget (ingestAll doc s) k = hget s k := by
  induction doc generalizing s with
  | nil => rfl
  | cons e rest ih =>
    rw [ingestAll_cons]
    cases hp : elemParse e with
    | none =>
      exact ih s (fun x hx => h x (List.mem_cons_of_mem e hx))
    | some kd =>
      obtain ⟨k', d'⟩ := kd
      have hk' : k' ≠ k := h e (List.mem_cons_self e rest) k' d' hp
      rw [ih (hset s k' d') (fun x hx => h x (List.mem_cons_of_mem e hx)),
        hget_hset_other s k' k d' hk']

/-! Claim theorems. -/

/-- C2 counterexample: ingest of a two-element document whose second element has a
non-numeric `X_DOT` raises, yet the first element is already in the store — the
backing store holds a proper subset of the document's records after the failure, so
the update is not all-or-nothing. -/
theorem process_data_incomplete_ingest_counterexample :
    process_data (.ok (some [okElem, badElem])) [] =
      ([("2025-061T12:00:00", ⟨1, 2, 3, 1, 1, 1⟩)], some Err.fieldError) ∧
    ([("2025-061T12:00:00", (⟨1, 2, 3, 1, 1, 1⟩ : SVData))] : Store) ≠ [] := by
  constructor
  · rfl
  · intro h
    exact List.noConfusion h

/-- C2 amended: failures before the element loop (fetch failure or non-success
status, and structural parse failure) leave the store unchanged; but a
missing/non-numeric required field on an element aborts the loop with every earlier
element already written, and only a document whose elements are all valid ingests
completely without error. -/
theorem process_data_failure_modes :
    (∀ s : Store, process_data .fail s = (s, some Err.typeError)) ∧
    (∀ s : Store, process_data (.ok none) s = (s, some Err.parseError)) ∧
    (∀ (pre : List RawSV) (e : RawSV) (post : List RawSV) (s : Store),
      (∀ x ∈ pre, (elemParse x).isSome) → elemParse e = none →
      process_data (.ok (some (pre ++ e :: post))) s =
        (ingestAll pre s, some Err.fieldError)) ∧
    (∀ (doc : List RawSV) (s : Store), (∀ x ∈ doc, (elemParse x).isSome) →
      process_data (.ok (some doc)) s = (ingestAll doc s, none)) := by
  refine ⟨fun _ => rfl, fun _ => rfl, ?_, ?_⟩
  · intro pre e post s hpre he
    show ingestLoop (pre ++ e :: post) s = _
    rw [ingestLoop_append_valid pre (e :: post) s hpre]
    show (match elemParse e with
          | none => (ingestAll pre s, some Err.fieldError)
          | some (k, d) => ingestLoop post (hset (ingestAll pre s) k d)) = _
    rw [he]
  · intro doc s h
    exact ingestLoop_all_valid doc s h

/-- C2 witness for the amended claim: the concrete two-element document of the
counterexample instantiates the mid-loop failure clause. -/
theorem process_data_failure_modes_witness :
    process_data (.ok (some ([okElem] ++ badElem :: []))) [] =
      (ingestAll [okElem] [], some Err.fieldError) :=
  process_data_failure_modes.2.2.1 [okElem] badElem [] []
    (by intro x hx; simp only [List.mem_singleton] at hx; subst hx; rfl)
    (by rfl)

/-- C3 counterexample: a NaN velocity component is not rejected — `speed` returns
NaN wrapped in a success value, because only `TypeError` is caught and NaN raises
nothing. -/
theorem speed_nan_not_rejected :
    speed (fun q => q) (.float .nan) (.float (.fin 0)) (.float (.fin 0)) =
      .ok .nan ∧
    (Except.ok PyFloat.nan : Except Err PyFloat) ≠ .error Err.valueError := by
  exact ⟨rfl, fun h => Except.noConfusion h⟩

/-- C3 amended: on finite numeric components `speed` returns the float square root of
`vx²+vy²+vz²`; a non-numeric component in any position raises `ValueError`
(the code's InvalidInput); but a NaN component in any position is not rejected —
the NaN propagates and `speed` silently returns NaN. -/
theorem speed_amended :
    (∀ (sq : ℚ → ℚ) (a b c : ℚ),
      speed sq (.float (.fin a)) (.float (.fin b)) (.float (.fin c)) =
        .ok (.fin (sq (a * a + b * b + c * c)))) ∧
    (∀ (sq : ℚ → ℚ) (t : String) (y z : PyVal),
      speed sq (.nonNumeric t) y z = .error Err.valueError) ∧
    (∀ (sq : ℚ → ℚ) (a : PyFloat) (t : String) (z : PyVal),
      speed sq (.float a) (.nonNumeric t) z = .error Err.valueError) ∧
    (∀ (sq : ℚ → ℚ) (a b : PyFloat) (t : String),
      speed sq (.float a) (.float b) (.nonNumeric t) = .error Err.valueError) ∧
    (∀ (sq : ℚ → ℚ) (b c : PyFloat),
      speed sq (.float .nan) (.float b) (.float c) = .ok .nan) ∧
    (∀ (sq : ℚ → ℚ) (a c : PyFloat),
      speed sq (.float a) (.float .nan) (.float c) = .ok .nan) ∧
    (∀ (sq : ℚ → ℚ) (a b : PyFloat),
      speed sq (.float a) (.float b) (.float .nan) = .ok .nan) := by
  refine ⟨fun _ _ _ _ => rfl, ?_, ?_, ?_, ?_, ?_, ?_⟩
  · intro sq t y z; cases y <;> cases z <;> rfl
  · intro sq a t z; cases z <;> rfl
  · intro sq a b t; rfl
  · intro sq b c; cases b <;> cases c <;> rfl
  · intro sq a c; cases a <;> cases c <;> rfl
  · intro sq a b; cases a <;> cases b <;> rfl

/-- C8: `get_iss_data` is load-once. On a store that already holds at least one
entry it performs no fetch and leaves every entry unchanged; on an empty store it
always fetches, and when every element of the fetched document is valid it inserts
every parsed record. -/
theorem get_iss_data_load_once :
    (∀ (f : Fetched) (s : Store), s ≠ [] →
      get_iss_data f s = (s, false, .ok (renderAll s))) ∧
    (∀ f : Fetched, (get_iss_data f []).2.1 = true) ∧
    (∀ doc : List RawSV, (∀ x ∈ doc, (elemParse x).isSome) →
      get_iss_data (.ok (some doc)) [] =
        (ingestAll doc [], true, .ok (renderAll (ingestAll doc [])))) := by
  refine ⟨?_, ?_, ?_⟩
  · intro f s hs
    match s, hs with
    | kv :: rest, _ => rfl
  · intro f
    have hrw : get_iss_data f [] =
        match process_data f [] with
        | (s', some e) => (s', true, .error e)
        | (s', none) => (s', true, .ok (renderAll s')) := rfl
    rw [hrw]
    obtain ⟨s', oe⟩ := process_data f []
    cases oe <;> rfl
  · intro doc h
    have hrw : get_iss_data (.ok (some doc)) [] =
        match process_data (.ok (some doc)) [] with
        | (s', some e) => (s', true, .error e)
        | (s', none) => (s', true, .ok (renderAll s')) := rfl
    rw [hrw, show process_data (.ok (some doc)) [] = (ingestAll doc [], none) from
      ingestLoop_all_valid doc [] h]

/-- C8 witness: a populated one-entry store is returned untouched with no fetch, and
a cold store ingests the whole valid one-element document. -/
theorem get_iss_data_load_once_witness :
    get_iss_data .fail wStore1 = (wStore1, false, .ok (renderAll wStore1)) ∧
    get_iss_data (.ok (some [okElem])) [] =
      (ingestAll [okElem] [], true, .ok (renderAll (ingestAll [okElem] []))) :=
  ⟨get_iss_data_load_once.1 .fail wStore1 (by decide),
   get_iss_data_load_once.2.2 [okElem]
     (by intro x hx; simp only [List.mem_singleton] at hx; subst hx; rfl)⟩

/-- C9: on an empty series, `closest_epoch`, `epoch_range` and `avg_speed` all raise
`ValueError` (the EmptySeries failure) instead of returning a value. -/
theorem empty_series_errors :
    ∀ (parseE : String → ℚ) (dflt : ℚ) (arg : Option ℚ) (sq : ℚ → ℚ),
      closest_epoch parseE dflt arg ([] : Store) = .error Err.valueError ∧
      epoch_range parseE ([] : Store) = .error Err.valueError ∧
      avg_speed sq ([] : Store) = .error Err.valueError :=
  fun _ _ _ _ => ⟨rfl, rfl, rfl⟩

/-- C10: the `/epochs` route honors `limit` and `offset` only together — when either
query parameter is absent the route is exactly `get_iss_data()`: the full dataset,
with no slicing and no validation or error for the parameter that was supplied. -/
theorem get_epochs_requires_both_params :
    (∀ (intParse : String → Option ℤ) (f : Fetched) (ls : String) (s : Store),
      get_epochs intParse f (some ls) none s = get_iss_data f s) ∧
    (∀ (intParse : String → Option ℤ) (f : Fetched) (os : String) (s : Store),
      get_epochs intParse f none (some os) s = get_iss_data f s) ∧
    (∀ (intParse : String → Option ℤ) (f : Fetched) (s : Store),
      get_epochs intParse f none none s = get_iss_data f s) ∧
    (∀ (intParse : String → Option ℤ) (f : Fetched) (ls : String) (s : Store),
      s ≠ [] →
      get_epochs intParse f (some ls) none s = (s, false, .ok (renderAll s))) := by
  refine ⟨fun _ _ _ _ => rfl, fun _ _ _ _ => rfl, fun _ _ _ => rfl, ?_⟩
  intro intParse f ls s hs
  match s, hs with
  | kv :: rest, _ => rfl

/-- C10 witness: supplying only `limit=5` against a populated store returns every
record unsliced. -/
theorem get_epochs_requires_both_params_witness :
    get_epochs (fun _ => none) .fail (some "5") none wStore1 =
      (wStore1, false, .ok (renderAll wStore1)) :=
  get_epochs_requires_both_params.2.2.2 (fun _ => none) .fail "5" wStore1 (by decide)

theorem collectRange_ok {α : Type} (l : List α) (n : ℕ) :
    ∀ i : ℕ, i + n ≤ l.length →
      collectRange l (i : ℤ) n = .ok ((l.drop i).take n) := by
  induction n with
  | zero => intro i _; simp [collectRange]
  | succ n ih =>
    intro i h
    have hi : i < l.length := by omega
    have hp : pyIndex l (i : ℤ) = some (l.get ⟨i, hi⟩) := by
      simp [pyIndex, List.get?_eq_get hi]
    have hrec : collectRange l ((i : ℤ) + 1) n = .ok ((l.drop (i + 1)).take n) := by
      rw [show (i : ℤ) + 1 = ((i + 1 : ℕ) : ℤ) by push_cast; ring]
      exact ih (i + 1) (by omega)
    show (match pyIndex l (i : ℤ) with
          | none => Except.error Err.indexError
          | some v =>
              match collectRange l ((i : ℤ) + 1) n with
              | .error e => Except.error e
              | .ok rest => Except.ok (v :: rest)) = _
    rw [hp, hrec]
    have hd : l.drop i = l.get ⟨i, hi⟩ :: l.drop (i + 1) := List.drop_eq_getElem_cons hi
    rw [hd]
    rfl

theorem collectRange_overrun {α : Type} (l : List α) (n : ℕ) :
    ∀ i : ℕ, i ≤ l.length → l.length < i + n →
      collectRange l (i : ℤ) n = .error Err.indexError := by
  induction n with
  | zero => intro i h1 h2; exact absurd h2 (by omega)
  | succ n ih =>
    intro i h1 h2
    show (match pyIndex l (i : ℤ) with
          | none => Except.error Err.indexError
          | some v =>
              match collectRange l ((i : ℤ) + 1) n with
              | .error e => Except.error e
              | .ok rest => Except.ok (v :: rest)) = _
    rcases Nat.lt_or_ge i l.length with hi | hi
    · have hp : pyIndex l (i : ℤ) = some (l.get ⟨i, hi⟩) := by
        simp [pyIndex, List.get?_eq_get hi]
      have hrec : collectRange l ((i : ℤ) + 1) n = .error Err.indexError := by
        rw [show (i : ℤ) + 1 = ((i + 1 : ℕ) : ℤ) by push_cast; ring]
        exact ih (i + 1) (by omega) (by omega)
      rw [hp, hrec]
    · have hie : i = l.length := by omega
      have hp : pyIndex l (i : ℤ) = none := by
        simp [pyIndex, List.get?_eq_none, hie]
      rw [hp]

theorem collectRange_error_is_indexError {α : Type} (l : List α) (n : ℕ) :
    ∀ (i : ℤ) (e : Err), collectRange l i n = .error e → e = Err.indexError := by
  induction n with
  | zero => intro i e h; exact absurd h (by simp [collectRange])
  | succ n ih =>
    intro i e h
    rw [show collectRange l i (n + 1) =
        (match pyIndex l i with
         | none => Except.error Err.indexError
         | some v =>
             match collectRange l (i + 1) n with
             | .error e => Except.error e
             | .ok rest => Except.ok (v :: rest)) from rfl] at h
    cases hp : pyIndex l i with
    | none =>
      rw [hp] at h
      exact (Except.error.inj h).symm
    | some v =>
      rw [hp] at h
      cases hc : collectRange l (i + 1) n with
      | error e' =>
        rw [hc] at h
        exact (Except.error.inj h) ▸ ih (i + 1) e' hc
      | ok rest =>
        rw [hc] at h
        exact absurd h (by simp)

/-- C1: the clamping branch of `get_epochs` is broken. For a non-empty series and
`0 < offset < len(series)`, whenever `limit <= 0` or `offset + limit >= len(series)`
the code sets `limit = len(state_vectors)` and then reads
`state_vectors[offset .. offset+len-1]`, which always runs past the end: the call
raises `IndexError` (HTTP 500) instead of returning the records from `offset` to the
end as the claim states. -/
theorem rangeSlice_clamped_call_raises (α : Type) (series : List α) (limit offset : ℤ)
    (h1 : 0 < offset) (h2 : offset < (series.length : ℤ))
    (h3 : limit ≤ 0 ∨ offset + limit ≥ (series.length : ℤ)) :
    rangeSlice series limit offset = .error Err.indexError := by
  have hcond : ¬(offset ≤ 0 ∨ offset ≥ (series.length : ℤ)) := by
    push_neg
    exact ⟨h1, h2⟩
  have hclamp : limit ≤ 0 ∨ limit + offset ≥ (series.length : ℤ) := by
    rcases h3 with h | h
    · exact Or.inl h
    · exact Or.inr (by omega)
  rw [show rangeSlice series limit offset =
      (if offset ≤ 0 ∨ offset ≥ (series.length : ℤ) then Except.error Err.badRequest
       else collectRange series offset
         ((if limit ≤ 0 ∨ limit + offset ≥ (series.length : ℤ) then
             ((series.length : ℤ)) else limit).toNat) : Except Err (List α)) from rfl,
    if_neg hcond, if_pos hclamp]
  rw [show ((series.length : ℤ)).toNat = series.length from Int.toNat_natCast _]
  rw [show offset = ((offset.toNat : ℕ) : ℤ) from (Int.toNat_of_nonneg h1.le).symm]
  exact collectRange_overrun series series.length offset.toNat (by omega) (by omega)

/-- C1 witness: on a 3-record series, `limit=0, offset=1` (a call the claim says
should return records 1..2) raises `IndexError`. -/
theorem rangeSlice_clamped_call_raises_witness :
    rangeSlice ([10, 20, 30] : List ℕ) 0 1 = .error Err.indexError :=
  rangeSlice_clamped_call_raises ℕ [10, 20, 30] 0 1 (by decide) (by decide)
    (Or.inl (by decide))

/-- C5: on a non-empty series the slice fails with `BadRequest` (OutOfRange) exactly
when `offset <= 0` (offset 0 included) or `offset >= len(series)`; and when
`0 < offset`, `0 < limit` and `offset + limit < len(series)` it returns exactly
`limit` records starting at index `offset`. -/
theorem rangeSlice_bounds (α : Type) (series : List α) (limit offset : ℤ)
    (_hne : series ≠ []) :
    (rangeSlice series limit offset = .error Err.badRequest ↔
      offset ≤ 0 ∨ offset ≥ (series.length : ℤ)) ∧
    (0 < offset → 0 < limit → offset + limit < (series.length : ℤ) →
      rangeSlice series limit offset =
        .ok ((series.drop offset.toNat).take limit.toNat) ∧
      (((series.drop offset.toNat).take limit.toNat).length : ℤ) = limit) := by
  have hrw : rangeSlice series limit offset =
      (if offset ≤ 0 ∨ offset ≥ (series.length : ℤ) then Except.error Err.badRequest
       else collectRange series offset
         ((if limit ≤ 0 ∨ limit + offset ≥ (series.length : ℤ) then
             ((series.length : ℤ)) else limit).toNat) : Except Err (List α)) := rfl
  constructor
  · constructor
    · intro h
      by_contra hc
      rw [hrw, if_neg hc] at h
      have := collectRange_error_is_indexError series _ offset Err.badRequest h
      exact absurd this (by decide)
    · intro hc
      rw [hrw, if_pos hc]
  · intro h1 h2 h3
    have hcond : ¬(offset ≤ 0 ∨ offset ≥ (series.length : ℤ)) := by
      push_neg
      exact ⟨h1, by omega⟩
    have hclamp : ¬(limit ≤ 0 ∨ limit + offset ≥ (series.length : ℤ)) := by
      push_neg
      exact ⟨h2, by omega⟩
    have hok : collectRange series ((offset.toNat : ℕ) : ℤ) limit.toNat =
        .ok ((series.drop offset.toNat).take limit.toNat) :=
      collectRange_ok series limit.toNat offset.toNat (by omega)
    rw [Int.toNat_of_nonneg h1.le] at hok
    constructor
    · rw [hrw, if_neg hcond, if_neg hclamp]
      exact hok
    · have : ((series.drop offset.toNat).take limit.toNat).length = limit.toNat := by
        rw [List.length_take, List.length_drop]
        omega
      rw [this]
      omega

/-- C5 witness: spec §8's example — `limit=2, offset=3` on a 6-record series returns
exactly the two records at indices 3 and 4, and `offset=-1` is OutOfRange. -/
theorem rangeSlice_bounds_witness :
    (rangeSlice ([10, 20, 30, 40, 50, 60] : List ℕ) 2000 (-1) =
        .error Err.badRequest ↔
      (-1 : ℤ) ≤ 0 ∨ (-1 : ℤ) ≥ ((([10, 20, 30, 40, 50, 60] : List ℕ)).length : ℤ)) ∧
    (rangeSlice ([10, 20, 30, 40, 50, 60] : List ℕ) 2 3 =
        .ok ((([10, 20, 30, 40, 50, 60] : List ℕ).drop (3 : ℤ).toNat).take
          (2 : ℤ).toNat) ∧
      (((([10, 20, 30, 40, 50, 60] : List ℕ).drop (3 : ℤ).toNat).take
          (2 : ℤ).toNat).length : ℤ) = 2) :=
  ⟨(rangeSlice_bounds ℕ [10, 20, 30, 40, 50, 60] 2000 (-1) (by decide)).1,
   (rangeSlice_bounds ℕ [10, 20, 30, 40, 50, 60] 2 3 (by decide)).2
     (by decide) (by decide) (by decide)⟩

/-- C4: the `/now` route does not use the request's clock time. `closest_epoch`'s
default `dateTime = datetime.now()` is evaluated once at module import, so
`get_now_epoch` has no per-call time input at all and every request compares against
the import-time clock (here 0). On a store with epochs at times 0 and 1000, the code
answers the epoch-0 record regardless of when it is called, while the spec-modelled
route evaluated at call time 1000 answers the epoch-1000 record. -/
theorem get_now_uses_import_time_default :
    get_now_epoch nowParse (fun q => q) 0 nowStore = .ok ((0, svA), 3) ∧
    get_now_epoch_specModel nowParse (fun q => q) 0 nowStore = .ok ((0, svA), 3) ∧
    get_now_epoch_specModel nowParse (fun q => q) 1000 nowStore =
      .ok ((1000, svB), 12) ∧
    (Except.ok (((0 : ℚ), svA), (3 : ℚ)) : Except Err ((ℚ × SVData) × ℚ)) ≠
      .ok (((1000 : ℚ), svB), 12) := by
  have hBA : ("B" = "A") = False := eq_false (by decide)
  refine ⟨?_, ?_, ?_, ?_⟩
  · norm_num [hBA, get_now_epoch, closest_epoch, scanStep, nowStore, nowParse, svA,
      svB, speedFin, qabs]
  · norm_num [hBA, get_now_epoch_specModel, closest_epoch, scanStep, nowStore,
      nowParse, svA, svB, speedFin, qabs]
  · norm_num [hBA, get_now_epoch_specModel, closest_epoch, scanStep, nowStore,
      nowParse, svA, svB, speedFin, qabs]
  · intro h
    have h2 := congrArg Prod.snd (Except.ok.inj h)
    norm_num at h2

/-- C7: round trip through the store. If the document ingests successfully and
element `e` (epoch truncated to key `k`, components `d`) has no later element
colliding on `k`, then for any requested epoch string `E` that truncates to `k`,
`get_specific_epoch` after the ingest succeeds and returns exactly `e`'s position and
velocity components. Instantiating `pre` with an earlier element of the same
truncated key shows the collision behavior: the later write wins. -/
theorem ingest_roundtrip (pre : List RawSV) (e : RawSV) (post : List RawSV)
    (s : Store) (k : String) (d : SVData) (E : String)
    (hpre : ∀ x ∈ pre, (elemParse x).isSome)
    (he : elemParse e = some (k, d))
    (hpost : ∀ x ∈ post, (elemParse x).isSome)
    (hnew : ∀ x ∈ post, ∀ k' d', elemParse x = some (k', d') → k' ≠ k)
    (hE : splitDot E = k) :
    process_data (.ok (some (pre ++ e :: post))) s =
      (ingestAll (pre ++ e :: post) s, none) ∧
    get_specific_epoch (ingestAll (pre ++ e :: post) s) E = .ok (E, d) := by
  have hall : ∀ x ∈ pre ++ e :: post, (elemParse x).isSome := by
    intro x hx
    rcases List.mem_append.mp hx with hx | hx
    · exact hpre x hx
    · rcases List.mem_cons.mp hx with hx | hx
      · rw [hx, he]; rfl
      · exact hpost x hx
  refine ⟨ingestLoop_all_valid _ s hall, ?_⟩
  have h1 : ingestAll (pre ++ e :: post) s =
      ingestAll post (hset (ingestAll pre s) k d) := by
    rw [ingestAll_append, ingestAll_cons, he]
  have h2 : hget (ingestAll (pre ++ e :: post) s) k = some d := by
    rw [h1, hget_ingestAll_no_key post _ k hnew, hget_hset_self]
  show (match hget (ingestAll (pre ++ e :: post) s) (splitDot E) with
        | none => Except.error Err.badRequest
        | some d' => Except.ok (E, d')) = _
  rw [hE, h2]

/-- C7 witness: two records whose feed epochs differ only in fractional seconds
collide on the truncated key `2025-061T12:00:00`; after ingest, looking the key up
through a request epoch with yet another fractional part succeeds and returns the
later record's components. -/
theorem ingest_roundtrip_witness :
    process_data (.ok (some ([okElem] ++ collideElem :: []))) [] =
      (ingestAll ([okElem] ++ collideElem :: []) [], none) ∧
    get_specific_epoch (ingestAll ([okElem] ++ collideElem :: []) [])
        "2025-061T12:00:00.999999Z" =
      .ok ("2025-061T12:00:00.999999Z", ⟨7, 8, 9, 7, 7, 7⟩) :=
  ingest_roundtrip [okElem] collideElem [] [] "2025-061T12:00:00"
    ⟨7, 8, 9, 7, 7, 7⟩ "2025-061T12:00:00.999999Z"
    (by intro x hx; simp only [List.mem_singleton] at hx; subst hx; rfl)
    (by rfl)
    (by intro x hx; exact absurd hx (List.not_mem_nil x))
    (by intro x hx; exact absurd hx (List.not_mem_nil x))
    (by rfl)

theorem getD_mem_of_lt {l : List (String × SVData)} {j : ℕ} (h : j < l.length) :
    l.getD j svDummy ∈ l := by
  rw [List.getD_eq_getElem l svDummy h]
  exact List.getElem_mem h

theorem foldl_scanStep_argmin (parseE : String → ℚ) (now : ℚ) :
    ∀ (l : List (String × SVData)) (b : ℚ × SVData) (m : ℚ),
      (List.foldl (scanStep parseE now) (some b, some m) l = (some b, some m) ∧
        ∀ kv ∈ l, m ≤ qabs (parseE kv.1 - now)) ∨
      (∃ i < l.length,
        List.foldl (scanStep parseE now) (some b, some m) l =
          (some (parseE (l.getD i svDummy).1, (l.getD i svDummy).2),
            some (qabs (parseE (l.getD i svDummy).1 - now))) ∧
        qabs (parseE (l.getD i svDummy).1 - now) < m ∧
        (∀ j < l.length,
          qabs (parseE (l.getD i svDummy).1 - now) ≤
            qabs (parseE (l.getD j svDummy).1 - now)) ∧
        (∀ j < i,
          qabs (parseE (l.getD i svDummy).1 - now) <
            qabs (parseE (l.getD j svDummy).1 - now))) := by
  intro l
  induction l with
  | nil =>
    intro b m
    exact Or.inl ⟨rfl, fun kv h => absurd h (List.not_mem_nil kv)⟩
  | cons kv rest ih =>
    intro b m
    rw [List.foldl_cons]
    by_cases hd : qabs (parseE kv.1 - now) < m
    · have hstep : scanStep parseE now (some b, some m) kv =
          (some (parseE kv.1, kv.2), some (qabs (parseE kv.1 - now))) := by
        simp [scanStep, hd]
      rw [hstep]
      rcases ih (parseE kv.1, kv.2) (qabs (parseE kv.1 - now)) with
        ⟨heq, hall⟩ | ⟨i, hi, heq, hlt, hmin, hfirst⟩
      · refine Or.inr ⟨0, by simp, ?_, ?_, ?_, ?_⟩
        · rw [heq]
          simp [List.getD_cons_zero]
        · simpa [List.getD_cons_zero] using hd
        · intro j hj
          cases j with
          | zero => simp [List.getD_cons_zero]
          | succ j =>
            simp only [List.getD_cons_zero, List.getD_cons_succ]
            exact hall (rest.getD j svDummy)
              (getD_mem_of_lt (by simpa using hj))
        · intro j hj
          exact absurd hj (Nat.not_lt_zero j)
      · refine Or.inr ⟨i + 1, by simpa using hi, ?_, ?_, ?_, ?_⟩
        · rw [heq]
          simp [List.getD_cons_succ]
        · simp only [List.getD_cons_succ]
          exact lt_trans hlt hd
        · intro j hj
          cases j with
          | zero =>
            simp only [List.getD_cons_succ, List.getD_cons_zero]
            exact le_of_lt hlt
          | succ j =>
            simp only [List.getD_cons_succ]
            exact hmin j (by simpa using hj)
        · intro j hj
          cases j with
          | zero =>
            simp only [List.getD_cons_succ, List.getD_cons_zero]
            exact hlt
          | succ j =>
            simp only [List.getD_cons_succ]
            exact hfirst j (by omega)
    · have hstep : scanStep parseE now (some b, some m) kv = (some b, some m) := by
        simp [scanStep, hd]
      rw [hstep]
      rcases ih b m with ⟨heq, hall⟩ | ⟨i, hi, heq, hlt, hmin, hfirst⟩
      · refine Or.inl ⟨heq, ?_⟩
        intro x hx
        rcases List.mem_cons.mp hx with hx | hx
        · rw [hx]
          exact le_of_not_lt hd
        · exact hall x hx
      · refine Or.inr ⟨i + 1, by simpa using hi, ?_, ?_, ?_, ?_⟩
        · rw [heq]
          simp [List.getD_cons_succ]
        · simp only [List.getD_cons_succ]
          exact hlt
        · intro j hj
          cases j with
          | zero =>
            simp only [List.getD_cons_succ, List.getD_cons_zero]
            exact le_of_lt (lt_of_lt_of_le hlt (le_of_not_lt hd))
          | succ j =>
            simp only [List.getD_cons_succ]
            exact hmin j (by simpa using hj)
        · intro j hj
          cases j with
          | zero =>
            simp only [List.getD_cons_succ, List.getD_cons_zero]
            exact lt_of_lt_of_le hlt (le_of_not_lt hd)
          | succ j =>
            simp only [List.getD_cons_succ]
            exact hfirst j (by omega)

/-- C6: for a non-empty series and any target, `closest_epoch` returns (the parsed
epoch and components of) a stored record minimizing `abs(epoch - target)` over the
whole store, and on ties it keeps the record encountered first in scan order: every
earlier record has a strictly larger difference. -/
theorem closest_epoch_argmin (parseE : String → ℚ) (dflt target : ℚ) (s : Store)
    (hs : s ≠ []) :
    ∃ i < s.length,
      closest_epoch parseE dflt (some target) s =
        .ok (some (parseE (s.getD i svDummy).1, (s.getD i svDummy).2)) ∧
      (∀ j < s.length,
        qabs (parseE (s.getD i svDummy).1 - target) ≤
          qabs (parseE (s.getD j svDummy).1 - target)) ∧
      (∀ j < i,
        qabs (parseE (s.getD i svDummy).1 - target) <
          qabs (parseE (s.getD j svDummy).1 - target)) := by
  match s, hs with
  | kv :: rest, _ =>
    have hrw : closest_epoch parseE dflt (some target) (kv :: rest) =
        .ok (List.foldl (scanStep parseE target)
          (some (parseE kv.1, kv.2), some (qabs (parseE kv.1 - target))) rest).1 :=
      rfl
    rcases foldl_scanStep_argmin parseE target rest (parseE kv.1, kv.2)
        (qabs (parseE kv.1 - target)) with
      ⟨heq, hall⟩ | ⟨i, hi, heq, hlt, hmin, hfirst⟩
    · refine ⟨0, by simp, ?_, ?_, ?_⟩
      · rw [hrw, heq]
        simp [List.getD_cons_zero]
      · intro j hj
        cases j with
        | zero => simp [List.getD_cons_zero]
        | succ j =>
          simp only [List.getD_cons_zero, List.getD_cons_succ]
          exact hall (rest.getD j svDummy) (getD_mem_of_lt (by simpa using hj))
      · intro j hj
        exact absurd hj (Nat.not_lt_zero j)
    · refine ⟨i + 1, by simpa using hi, ?_, ?_, ?_⟩
      · rw [hrw, heq]
        simp [List.getD_cons_succ]
      · intro j hj
        cases j with
        | zero =>
          simp only [List.getD_cons_succ, List.getD_cons_zero]
          exact le_of_lt hlt
        | succ j =>
          simp only [List.getD_cons_succ]
          exact hmin j (by simpa using hj)
      · intro j hj
        cases j with
        | zero =>
          simp only [List.getD_cons_succ, List.getD_cons_zero]
          exact hlt
        | succ j =>
          simp only [List.getD_cons_succ]
          exact hfirst j (by omega)

/-- C6 witness: spec §8's sample — on records at 12:00, 12:05, 12:10 (0 s, 300 s,
600 s), the scan targeted at 12:06 (360 s) picks a record minimizing the absolute
difference, the 12:05 one. -/
theorem closest_epoch_argmin_witness :
    ∃ i < wStore3.length,
      closest_epoch wParse 0 (some 360) wStore3 =
        .ok (some (wParse (wStore3.getD i svDummy).1, (wStore3.getD i svDummy).2)) ∧
      (∀ j < wStore3.length,
        qabs (wParse (wStore3.getD i svDummy).1 - 360) ≤
          qabs (wParse (wStore3.getD j svDummy).1 - 360)) ∧
      (∀ j < i,
        qabs (wParse (wStore3.getD i svDummy).1 - 360) <
          qabs (wParse (wStore3.getD j svDummy).1 - 360)) :=
  closest_epoch_argmin wParse 0 360 wStore3 (by decide)

end ISSTracker
